import Mathlib

set_option maxRecDepth 4096

/-!
Verification development for the shadPS4 IME dialog session (header
`src/core/libraries/dialogs/ime_dialog_ui.h`) and the Qt compatibility
database (`src/qt_gui/compatibility_info.cpp` / `.h`).

The compatibility-database functions are embedded directly from
`compatibility_info.cpp`.  The IME dialog implementation file is not part of
the available sources (only its header is), so its operations are modelled
from the specification, as marked on each such definition.
-/

/- ===================== Compatibility database embedding ================== -/

/-- `CompatibilityStatus` from `compatibility_info.h` lines 14-21. -/
inductive CompatibilityStatus where
  | unknown
  | nothing
  | boots
  | menus
  | ingame
  | playable
deriving DecidableEq

/-- `OSType` from `compatibility_info.h` lines 24-43 (without the iteration
sentinel `Last`, which is replaced by the explicit enumeration order
`osEnumOrder` below). -/
inductive OSType where
  | win32OS
  | unknownOS
  | linuxOS
  | macOS
deriving DecidableEq

/-- The three build platforms distinguished by the `#ifdef` blocks around
`OSType` in `compatibility_info.h`. -/
inductive BuildPlatform where
  | windows
  | linux
  | mac
deriving DecidableEq

/-- The numeric enumeration order of `OSType` values (`os_int = 0, 1, 2, 3`)
as laid out by the platform-dependent `#ifdef` blocks in
`compatibility_info.h` lines 25-39. -/
def osEnumOrder : BuildPlatform → List OSType
  | .windows => [.win32OS, .unknownOS, .linuxOS, .macOS]
  | .linux => [.linuxOS, .unknownOS, .win32OS, .macOS]
  | .mac => [.macOS, .unknownOS, .linuxOS, .win32OS]

/-- The OS given value `0` by the enum on each platform. -/
def currentPlatformOS : BuildPlatform → OSType
  | .windows => .win32OS
  | .linux => .linuxOS
  | .mac => .macOS

/-- The `OSTypeToString` map of `compatibility_info.h` lines 74-78. -/
def osTypeToString : OSType → String
  | .linuxOS => "os-linux"
  | .macOS => "os-macOS"
  | .win32OS => "os-windows"
  | .unknownOS => "os-unknown"

/-- The `LabelToCompatStatus` map of `compatibility_info.h` lines 55-60;
`none` models a key that is absent from the map (so that `.at` throws). -/
def labelToCompatStatus (label : String) : Option CompatibilityStatus :=
  if label = "status-nothing" then some .nothing
  else if label = "status-boots" then some .boots
  else if label = "status-menus" then some .menus
  else if label = "status-ingame" then some .ingame
  else if label = "status-playable" then some .playable
  else none

/-- The `LabelToOSType` map of `compatibility_info.h` lines 61-65. -/
def labelToOSType (label : String) : Option OSType :=
  if label = "os-linux" then some .linuxOS
  else if label = "os-macOS" then some .macOS
  else if label = "os-windows" then some .win32OS
  else none

/-- A shallow JSON value, covering the shapes `compatibility_info.cpp`
distinguishes: null, strings, objects, and everything else (numbers,
arrays, booleans), which the code only ever passes through `toObject` /
`toString` where it degrades to the default value. -/
inductive JVal where
  | jnull
  | jstr (s : String)
  | jobj (fields : List (String × JVal))
  | jother

/-- A JSON object (`QJsonObject`) as an association list with the first
occurrence of a key authoritative (keys are unique in a real
`QJsonObject`). -/
abbrev Db := List (String × JVal)

/-- First-match association lookup, the semantics of `QJsonObject::value`. -/
def dbLookup : Db → String → Option JVal
  | [], _ => none
  | (k2, v) :: rest, k => if k2 = k then some v else dbLookup rest k

/-- `QJsonObject::contains`. -/
def dbContains (db : Db) (k : String) : Bool :=
  (dbLookup db k).isSome

/-- Replace the value of the first entry holding key `k`; if no entry holds
`k` the object is unchanged.  This is the effect of writing through a
`QJsonValueRef` that refers to an existing key. -/
def dbSet : Db → String → JVal → Db
  | [], _, _ => []
  | (k2, v2) :: rest, k, v =>
    if k2 = k then (k2, v) :: rest else (k2, v2) :: dbSet rest k v

/-- `QJsonValue::toObject`: the fields of an object value, the empty object
for every other shape. -/
def jvalToObject : JVal → List (String × JVal)
  | .jobj fields => fields
  | _ => []

/-- `QJsonValue::toString`: the text of a string value, the null string
(modelled as `""`) for every other shape. -/
def jvalToString : JVal → String
  | .jstr s => s
  | _ => ""

/-- `QJsonObject::operator[]` on a key already checked with `contains`:
the stored value, with `jnull` as the (unreachable) default. -/
def dbValue (db : Db) (k : String) : JVal :=
  (dbLookup db k).getD .jnull

/-- The `for (int os_int = 0; os_int != OSType::Last; os_int++)` loop of
`GetCompatibilityStatus` (`compatibility_info.cpp` lines 124-131): walk the
OS keys in enumeration order; on the first one contained in the title's
object, return `LabelToCompatStatus.at` of its string value (`none` models
the `std::out_of_range` throw of `.at` on an unmapped value); if none is
contained, fall through to `Unknown`. -/
def getCompatStatusLoop (entry : List (String × JVal)) : List OSType → Option CompatibilityStatus
  | [] => some .unknown
  | os :: rest =>
    if dbContains entry (osTypeToString os) then
      labelToCompatStatus (jvalToString (dbValue entry (osTypeToString os)))
    else getCompatStatusLoop entry rest

/-- `CompatibilityInfoClass::GetCompatibilityStatus`
(`compatibility_info.cpp` lines 120-135).  The database and the build
platform are explicit parameters; the loop body re-reads
`m_compatibility_database[title_id].toObject()` each iteration, but the
database is not mutated inside the loop, so the object is hoisted. -/
def GetCompatibilityStatus (p : BuildPlatform) (db : Db) (serial : String) :
    Option CompatibilityStatus :=
  if dbContains db serial then
    getCompatStatusLoop (jvalToObject (dbValue db serial)) (osEnumOrder p)
  else some .unknown

/-- Restatement of claim C8 in its own words: absent serial (or an entry
containing none of the known OS keys) gives `Unknown`; otherwise the status
mapped from the first OS key, in platform-priority enumeration order, that
exists in the title's entry. -/
def getCompatibilityStatusSpec (p : BuildPlatform) (db : Db) (serial : String) :
    Option CompatibilityStatus :=
  match dbLookup db serial with
  | none => some .unknown
  | some v =>
    match (osEnumOrder p).find? (fun os => dbContains (jvalToObject v) (osTypeToString os)) with
    | none => some .unknown
    | some os =>
      labelToCompatStatus (jvalToString (dbValue (jvalToObject v) (osTypeToString os)))

/- ===================== LoadCompatibilityFile embedding =================== -/

/-- The result of `QJsonDocument::fromJson` as far as
`compatibility_info.cpp` inspects it: a null/empty document (parse failure),
a document holding a top-level object, or one holding a top-level array. -/
inductive QJsonDocumentModel where
  | docNull
  | docObj (o : Db)
  | docArr

/-- `QJsonDocument::object`: the top-level object, or the empty object when
the document does not hold an object. -/
def jdocObject : QJsonDocumentModel → Db
  | .docObj o => o
  | _ => []

/-- `json_doc.isEmpty() || json_doc.isNull()`: both hold exactly for the
null document among `fromJson` results. -/
def jdocIsNullOrEmpty : QJsonDocumentModel → Bool
  | .docNull => true
  | _ => false

/-- `CompatibilityInfoClass::LoadCompatibilityFile`
(`compatibility_info.cpp` lines 137-153).  `openOk` is the outcome of
`QFile::open(ReadOnly)`; `parsed` is `QJsonDocument::fromJson` of the
file's bytes; the current database is threaded explicitly.  Returns the
boolean result and the database after the call. -/
def LoadCompatibilityFile (openOk : Bool) (parsed : QJsonDocumentModel) (db : Db) :
    Bool × Db :=
  if !openOk then (false, db)
  else if jdocIsNullOrEmpty parsed then (false, db)
  else (true, jdocObject parsed)

/- ===================== ExtractCompatibilityInfo embedding ================ -/

/-- One element of the issues array consumed by `ExtractCompatibilityInfo`:
its `"title"` string and, when the `"labels"` key is present, the list of
the label objects' `"name"` strings (`labels = none` models a missing
`"labels"` key). -/
structure Issue where
  title : List Char
  labels : Option (List String)

/-- Decimal-digit test for the `[0-9]` character class. -/
def isAsciiDigit (c : Char) : Bool :=
  decide ('0' ≤ c) && decide (c ≤ '9')

/-- Attempt to match the regular expression `CUSA[0-9]{5}` at the head of
the character list, returning `captured(0)`. -/
def matchTitleIdAt : List Char → Option (List Char)
  | 'C' :: 'U' :: 'S' :: 'A' :: d1 :: d2 :: d3 :: d4 :: d5 :: _ =>
    if isAsciiDigit d1 && isAsciiDigit d2 && isAsciiDigit d3 &&
       isAsciiDigit d4 && isAsciiDigit d5 then
      some ['C', 'U', 'S', 'A', d1, d2, d3, d4, d5]
    else none
  | _ => none

/-- Leftmost match of `CUSA[0-9]{5}` in the title, the semantics of
`QRegularExpression::match` in `ExtractCompatibilityInfo`
(`compatibility_info.cpp` lines 170-172). -/
def findTitleId : List Char → Option (List Char)
  | [] => none
  | c :: rest =>
    match matchTitleIdAt (c :: rest) with
    | some m => some m
    | none => findTitleId rest

/-- The label scan of `ExtractCompatibilityInfo` (`compatibility_info.cpp`
lines 178-188): starting from `("os-unknown", "status-unknown")`, each label
found in `LabelToOSType` becomes the current OS, each label found in
`LabelToCompatStatus` becomes the current status. -/
def processLabelsGo : List String → String → String → String × String
  | [], os, st => (os, st)
  | l :: rest, os, st =>
    if (labelToOSType l).isSome then processLabelsGo rest l st
    else if (labelToCompatStatus l).isSome then processLabelsGo rest os l
    else processLabelsGo rest os st

/-- The database update of `ExtractCompatibilityInfo`
(`compatibility_info.cpp` lines 190-196): `m_compatibility_database[tid]`
inserts a null entry when `tid` is absent; a null reference is assigned a
fresh one-field object; otherwise `ref.toObject()[os] = st` assigns into a
detached copy, leaving the stored entry unchanged. -/
def updateEntry (db : Db) (tid os st : String) : Db :=
  match dbLookup db tid with
  | none => db ++ [(tid, JVal.jobj [(os, JVal.jstr st)])]
  | some JVal.jnull => dbSet db tid (JVal.jobj [(os, JVal.jstr st)])
  | some _ => db

/-- One iteration of the issues loop of `ExtractCompatibilityInfo`
(`compatibility_info.cpp` lines 167-197). -/
def processIssue (db : Db) (i : Issue) : Db :=
  match i.labels, findTitleId i.title with
  | some ls, some tid =>
    let p := processLabelsGo ls "os-unknown" "status-unknown"
    updateEntry db (String.mk tid) p.1 p.2
  | _, _ => db

/-- `CompatibilityInfoClass::ExtractCompatibilityInfo`
(`compatibility_info.cpp` lines 156-201), taking the response already
parsed: `none` is a null document (early return); a non-null document
yields the issues array (a non-array document yields the empty array, hence
`some []`). -/
def ExtractCompatibilityInfo (doc : Option (List Issue)) (db : Db) : Db :=
  match doc with
  | none => db
  | some issues => issues.foldl processIssue db

/- ===================== IME dialog session model ========================== -/

/-- A Unicode scalar value: below the surrogate range or between it and
`0x110000`. -/
abbrev ValidScalar (c : Nat) : Prop :=
  c < 0xD800 ∨ (0xE000 ≤ c ∧ c < 0x110000)

/-- UTF-16 encoding of one scalar value: one code unit below `0x10000`, a
surrogate pair above. -/
def utf16EncodeChar (c : Nat) : List Nat :=
  if c < 0x10000 then [c]
  else [0xD800 + (c - 0x10000) / 0x400, 0xDC00 + (c - 0x10000) % 0x400]

/-- UTF-16 encoding of a scalar sequence. -/
def utf16EncodeList : List Nat → List Nat
  | [] => []
  | c :: cs => utf16EncodeChar c ++ utf16EncodeList cs

/-- UTF-16 decoding of a `char16_t` code-unit sequence into scalar values;
`none` on a lone or inverted surrogate or a unit out of `char16_t` range. -/
def utf16Decode : List Nat → Option (List Nat)
  | [] => some []
  | u :: rest =>
    if u < 0xD800 ∨ (0xE000 ≤ u ∧ u < 0x10000) then
      (utf16Decode rest).map (fun cs => u :: cs)
    else if 0xD800 ≤ u ∧ u < 0xDC00 then
      match rest with
      | u2 :: rest2 =>
        if 0xDC00 ≤ u2 ∧ u2 < 0xE000 then
          (utf16Decode rest2).map
            (fun cs => (0x10000 + (u - 0xD800) * 0x400 + (u2 - 0xDC00)) :: cs)
        else none
      | [] => none
    else none

/-- UTF-8 encoding of one scalar value into one to four bytes. -/
def utf8EncodeChar (c : Nat) : List Nat :=
  if c < 0x80 then [c]
  else if c < 0x800 then [0xC0 + c / 0x40, 0x80 + c % 0x40]
  else if c < 0x10000 then
    [0xE0 + c / 0x1000, 0x80 + (c / 0x40) % 0x40, 0x80 + c % 0x40]
  else
    [0xF0 + c / 0x40000, 0x80 + (c / 0x1000) % 0x40, 0x80 + (c / 0x40) % 0x40,
     0x80 + c % 0x40]

/-- UTF-8 encoding of a scalar sequence. -/
def utf8EncodeList : List Nat → List Nat
  | [] => []
  | c :: cs => utf8EncodeChar c ++ utf8EncodeList cs

/-- UTF-8 decoding of a byte sequence into scalar values; `none` on a
malformed, overlong, surrogate or out-of-range sequence. -/
def utf8Decode : List Nat → Option (List Nat)
  | [] => some []
  | b0 :: rest =>
    if b0 < 0x80 then (utf8Decode rest).map (fun cs => b0 :: cs)
    else if b0 < 0xC2 then none
    else
      match rest with
      | [] => none
      | b1 :: rest1 =>
        if ¬ (0x80 ≤ b1 ∧ b1 < 0xC0) then none
        else if b0 < 0xE0 then
          (utf8Decode rest1).map (fun cs => ((b0 - 0xC0) * 0x40 + (b1 - 0x80)) :: cs)
        else
          match rest1 with
          | [] => none
          | b2 :: rest2 =>
            if ¬ (0x80 ≤ b2 ∧ b2 < 0xC0) then none
            else if b0 < 0xF0 then
              if 0x800 ≤ (b0 - 0xE0) * 0x1000 + (b1 - 0x80) * 0x40 + (b2 - 0x80) ∧
                 ¬ (0xD800 ≤ (b0 - 0xE0) * 0x1000 + (b1 - 0x80) * 0x40 + (b2 - 0x80) ∧
                    (b0 - 0xE0) * 0x1000 + (b1 - 0x80) * 0x40 + (b2 - 0x80) < 0xE000) then
                (utf8Decode rest2).map
                  (fun cs => ((b0 - 0xE0) * 0x1000 + (b1 - 0x80) * 0x40 + (b2 - 0x80)) :: cs)
              else none
            else
              match rest2 with
              | [] => none
              | b3 :: rest3 =>
                if ¬ (0x80 ≤ b3 ∧ b3 < 0xC0) then none
                else if b0 < 0xF5 then
                  if 0x10000 ≤ (b0 - 0xF0) * 0x40000 + (b1 - 0x80) * 0x1000 +
                       (b2 - 0x80) * 0x40 + (b3 - 0x80) ∧
                     (b0 - 0xF0) * 0x40000 + (b1 - 0x80) * 0x1000 + (b2 - 0x80) * 0x40 +
                       (b3 - 0x80) < 0x110000 then
                    (utf8Decode rest3).map
                      (fun cs => ((b0 - 0xF0) * 0x40000 + (b1 - 0x80) * 0x1000 +
                        (b2 - 0x80) * 0x40 + (b3 - 0x80)) :: cs)
                  else none
                else none

/-- Modelled from the spec: `ImeDialogState::ConvertOrbisToUTF8`
(`ime_dialog_ui.h` lines 58-59; the implementation file is not among the
sources).  The codec boundary converts the fixed-width native (`char16_t`)
text to the variable-width host (UTF-8) text; per-call failure on malformed
input is `none`. -/
def ConvertOrbisToUTF8 (orbis_text : List Nat) : Option (List Nat) :=
  (utf16Decode orbis_text).map utf8EncodeList

/-- Modelled from the spec: `ImeDialogState::ConvertUTF8ToOrbis`
(`ime_dialog_ui.h` lines 60-61; the implementation file is not among the
sources).  Converts host (UTF-8) text back to native (`char16_t`) text;
per-call failure on malformed input is `none`. -/
def ConvertUTF8ToOrbis (native_text : List Nat) : Option (List Nat) :=
  (utf8Decode native_text).map utf16EncodeList

/-- State of one lazily-established iconv conversion context
(`ime_dialog_ui.h` lines 39-40): not yet requested, established, or
permanently unavailable after a failed establishment (`CodecUnavailable`). -/
inductive IconvCtx where
  | notEstablished
  | established
  | unavailable
deriving DecidableEq

/-- Modelled from the spec: the fields of `ImeDialogState`
(`ime_dialog_ui.h` lines 19-41) that the specified operations touch.  The
native buffer `text_buffer` holds `char16_t` code units, the display buffer
`current_text` holds UTF-8 bytes; `utf8_to_orbis` is the host-to-native
conversion context. -/
structure ImeDialogState where
  input_changed : Bool
  is_multiLine : Bool
  is_numeric : Bool
  max_text_length : Nat
  text_buffer : List Nat
  current_text : List Nat
  utf8_to_orbis : IconvCtx
  orbis_to_utf8 : IconvCtx

/-- UTF-16 encoding truncated to at most `maxLen` code units: each scalar's
encoding is appended only while it fits whole, so a surrogate pair is never
split. -/
def utf16EncodeTrunc (maxLen : Nat) : List Nat → List Nat
  | [] => []
  | c :: cs =>
    if (utf16EncodeChar c).length ≤ maxLen then
      utf16EncodeChar c ++ utf16EncodeTrunc (maxLen - (utf16EncodeChar c).length) cs
    else []

/-- Modelled from the spec: the conversion step of
`ImeDialogState::CopyTextToOrbisBuffer` once a context is available —
convert the display buffer into the native buffer respecting
`max_text_length`, truncating at a code-unit boundary; hard conversion
failure returns `false` with the prior buffer retained, success clears
`input_changed`. -/
def copyConvertStep (s : ImeDialogState) : Bool × ImeDialogState :=
  match utf8Decode s.current_text with
  | none => (false, s)
  | some cs =>
    (true, { s with text_buffer := utf16EncodeTrunc s.max_text_length cs,
                    input_changed := false })

/-- Modelled from the spec: `ImeDialogState::CopyTextToOrbisBuffer`
(`ime_dialog_ui.h` line 51; the implementation file is not among the
sources).  Lazily establishes the host-to-native context: `codecAvailable`
is whether establishment can succeed on this platform; after a failed
establishment the context is permanently unavailable and no further
conversion is attempted. -/
def CopyTextToOrbisBuffer (codecAvailable : Bool) (s : ImeDialogState) :
    Bool × ImeDialogState :=
  match s.utf8_to_orbis with
  | .unavailable => (false, s)
  | .notEstablished =>
    if codecAvailable then copyConvertStep { s with utf8_to_orbis := .established }
    else (false, { s with utf8_to_orbis := .unavailable })
  | .established => copyConvertStep s

/-- Result of the text-filter callback: accept, reject, or replace the text
wholesale. -/
inductive OrbisTextFilterResult where
  | accept
  | reject
  | replace (t : List Nat)

/-- Modelled from the spec: `ImeDialogState::CallTextFilter`
(`ime_dialog_ui.h` line 52; the implementation file is not among the
sources).  With no filter configured the call is a no-op success; otherwise
the filter receives the current text and the numeric/multi-line mode and
may accept, reject (failure, buffers untouched), or replace the text
(capacity still enforced). -/
def CallTextFilter
    (text_filter : Option (List Nat → Bool → Bool → OrbisTextFilterResult))
    (s : ImeDialogState) : Bool × ImeDialogState :=
  match text_filter with
  | none => (true, s)
  | some f =>
    match f s.text_buffer s.is_numeric s.is_multiLine with
    | .accept => (true, s)
    | .reject => (false, s)
    | .replace t =>
      (true, { s with text_buffer := utf16EncodeTrunc s.max_text_length t,
                      input_changed := true })

/-- Modelled from the spec: the keycode event passed to
`ImeDialogState::CallKeyboardFilter` (`ime_dialog_ui.h` line 56); its
`keycode` field is the event's character as a `u16` code unit. -/
structure OrbisImeKeycode where
  keycode : Nat

/-- Status codes the keyboard filter can return: accept unchanged, accept
with a replacement character, reject, or signal a special action. -/
inductive KeyboardFilterStatus where
  | acceptUnchanged
  | acceptReplaced
  | reject
  | specialAction (code : Nat)
deriving DecidableEq

/-- Modelled from the spec: `ImeDialogState::CallKeyboardFilter`
(`ime_dialog_ui.h` line 56; the implementation file is not among the
sources).  Returns success, the output character (`out_keycode`) and the
output status: with no filter configured the keycode passes through
unmodified with the accept-unchanged status; otherwise the filter supplies
both outputs. -/
def CallKeyboardFilter
    (keyboard_filter : Option (OrbisImeKeycode → Nat × KeyboardFilterStatus))
    (src_keycode : OrbisImeKeycode) : Bool × Nat × KeyboardFilterStatus :=
  match keyboard_filter with
  | none => (true, src_keycode.keycode, .acceptUnchanged)
  | some f => (true, f src_keycode)

/-- Modelled from the spec: the compile-time constant
`ORBIS_IME_DIALOG_MAX_TEXT_LENGTH` comes from
`core/libraries/dialogs/ime_dialog.h`, which is not among the sources; the
spec fixes no value and the theorems below depend only on it being one
compile-time constant, fixed here at the upstream value 2048. -/
def ORBIS_IME_DIALOG_MAX_TEXT_LENGTH : Nat := 2048

/-- Modelled from the spec: the part of `OrbisImeDialogParam` relevant to
the session's buffers — the configured maximum text length in native code
units (`ime_dialog_ui.h` line 31). -/
structure OrbisImeDialogParam where
  maxTextLength : Nat

/-- The capacity in host code units (bytes) of the display buffer a session
constructed from `param` holds: `ime_dialog_ui.h` line 37 declares
`char current_text[ORBIS_IME_DIALOG_MAX_TEXT_LENGTH * 4 + 1]`, a fixed
in-class array whose size does not read the configuration. -/
def sessionDisplayCapacity (_param : OrbisImeDialogParam) : Nat :=
  ORBIS_IME_DIALOG_MAX_TEXT_LENGTH * 4 + 1

/- ===================== Theorems: compatibility database ================== -/

theorem getCompatStatusLoop_eq_find (entry : List (String × JVal)) (l : List OSType) :
    getCompatStatusLoop entry l =
      match l.find? (fun os => dbContains entry (osTypeToString os)) with
      | none => some .unknown
      | some os =>
        labelToCompatStatus (jvalToString (dbValue entry (osTypeToString os))) := by
  induction l with
  | nil => rfl
  | cons os rest ih =>
    by_cases h : dbContains entry (osTypeToString os) = true
    · simp [getCompatStatusLoop, List.find?, h]
    · simp only [Bool.not_eq_true] at h
      simp [getCompatStatusLoop, List.find?, h, ih]

/-- C8: a serial absent from the database (or whose entry contains none of
the known OS keys) yields `Unknown`; a present serial yields the status
mapped from the first OS key, in the platform-priority enumeration order
starting at the current platform's OS, that exists in the title's entry. -/
theorem C8_getCompatibilityStatus :
    (∀ p db serial,
      GetCompatibilityStatus p db serial = getCompatibilityStatusSpec p db serial) ∧
    (∀ p, (osEnumOrder p).head? = some (currentPlatformOS p)) := by
  constructor
  · intro p db serial
    unfold GetCompatibilityStatus getCompatibilityStatusSpec
    cases hl : dbLookup db serial with
    | none => simp [dbContains, hl]
    | some v => simp [dbContains, dbValue, hl, getCompatStatusLoop_eq_find]
  · intro p
    cases p <;> rfl

/-- C10: `LoadCompatibilityFile` returns `false` and leaves the database
unchanged when the file cannot be opened or parses to a null/empty
document; otherwise it replaces the database with the document's top-level
object and returns `true`. -/
theorem C10_loadCompatibilityFile (openOk : Bool) (parsed : QJsonDocumentModel) (db : Db) :
    ((openOk = false ∨ parsed = .docNull) →
      LoadCompatibilityFile openOk parsed db = (false, db)) ∧
    (openOk = true → parsed ≠ .docNull →
      LoadCompatibilityFile openOk parsed db = (true, jdocObject parsed)) := by
  constructor
  · rintro (h | h)
    · subst h; rfl
    · subst h; cases openOk <;> rfl
  · intro h1 h2
    subst h1
    cases parsed with
    | docNull => exact absurd rfl h2
    | docObj o => rfl
    | docArr => rfl

theorem C10_witness :
    LoadCompatibilityFile true (.docObj [("CUSA00001", JVal.jnull)]) [] =
      (true, [("CUSA00001", JVal.jnull)]) :=
  (C10_loadCompatibilityFile true (.docObj [("CUSA00001", JVal.jnull)]) []).2 rfl
    (fun hx => QJsonDocumentModel.noConfusion hx)

/- ===================== Theorems: IME dialog session ====================== -/

/-- C4: with no keyboard filter configured, `CallKeyboardFilter` succeeds
and every keycode event passes through unmodified with the accept-unchanged
status. -/
theorem C4_noFilterPassthrough (src : OrbisImeKeycode) :
    CallKeyboardFilter none src =
      (true, src.keycode, KeyboardFilterStatus.acceptUnchanged) := rfl

/-- C3: a rejecting text filter makes `CallTextFilter` report failure and
leaves the native and display buffers byte-identical to their state before
the call. -/
theorem C3_filterRejectionIdempotence
    (f : List Nat → Bool → Bool → OrbisTextFilterResult) (s : ImeDialogState)
    (h : f s.text_buffer s.is_numeric s.is_multiLine = .reject) :
    (CallTextFilter (some f) s).1 = false ∧
    (CallTextFilter (some f) s).2.text_buffer = s.text_buffer ∧
    (CallTextFilter (some f) s).2.current_text = s.current_text := by
  simp [CallTextFilter, h]

theorem C3_witness :
    (CallTextFilter (some (fun _ _ _ => .reject))
      ⟨false, false, false, 8, [104, 105], [104, 105], .established, .established⟩).1
        = false ∧
    (CallTextFilter (some (fun _ _ _ => .reject))
      ⟨false, false, false, 8, [104, 105], [104, 105], .established, .established⟩).2.text_buffer
        = [104, 105] ∧
    (CallTextFilter (some (fun _ _ _ => .reject))
      ⟨false, false, false, 8, [104, 105], [104, 105], .established, .established⟩).2.current_text
        = [104, 105] :=
  C3_filterRejectionIdempotence (fun _ _ _ => .reject)
    ⟨false, false, false, 8, [104, 105], [104, 105], .established, .established⟩ rfl

/-- C5 counterexample: a session configured with `max_text_length = 8` does
not hold a display buffer of `8 * 4 + 1` host code units — the buffer is
the fixed in-class array of `ime_dialog_ui.h` line 37, whose size ignores
the configuration. -/
theorem C5_counterexample :
    ¬ (sessionDisplayCapacity ⟨8⟩ = 8 * 4 + 1) := by decide

/-- C5 (amended): for every configuration, the session's display buffer
holds exactly `ORBIS_IME_DIALOG_MAX_TEXT_LENGTH * 4 + 1` host code units —
the compile-time worst case (4 host units per native unit plus a
terminator), independent of the configured `max_text_length`. -/
theorem C5_displayCapacity (param : OrbisImeDialogParam) :
    sessionDisplayCapacity param = ORBIS_IME_DIALOG_MAX_TEXT_LENGTH * 4 + 1 := rfl

/-- C6: when codec establishment fails for a session, the first
`CopyTextToOrbisBuffer` call returns `false` and leaves the buffers
inspectable and unchanged, the context becomes permanently unavailable, and
every later conversion call fails without touching the session. -/
theorem C6_codecUnavailable (s : ImeDialogState) (h : s.utf8_to_orbis = .notEstablished) :
    (CopyTextToOrbisBuffer false s).1 = false ∧
    (CopyTextToOrbisBuffer false s).2.utf8_to_orbis = .unavailable ∧
    (CopyTextToOrbisBuffer false s).2.text_buffer = s.text_buffer ∧
    (CopyTextToOrbisBuffer false s).2.current_text = s.current_text ∧
    ∀ avail, CopyTextToOrbisBuffer avail (CopyTextToOrbisBuffer false s).2 =
      (false, (CopyTextToOrbisBuffer false s).2) := by
  refine ⟨?_, ?_, ?_, ?_, ?_⟩ <;> simp [CopyTextToOrbisBuffer, h]

theorem C6_witness :
    (CopyTextToOrbisBuffer false
      ⟨false, false, false, 8, [1], [2], .notEstablished, .notEstablished⟩).1 = false ∧
    CopyTextToOrbisBuffer true
      (CopyTextToOrbisBuffer false
        ⟨false, false, false, 8, [1], [2], .notEstablished, .notEstablished⟩).2 =
      (false, (CopyTextToOrbisBuffer false
        ⟨false, false, false, 8, [1], [2], .notEstablished, .notEstablished⟩).2) :=
  ⟨(C6_codecUnavailable
      ⟨false, false, false, 8, [1], [2], .notEstablished, .notEstablished⟩ rfl).1,
   (C6_codecUnavailable
      ⟨false, false, false, 8, [1], [2], .notEstablished, .notEstablished⟩ rfl).2.2.2.2 true⟩

theorem utf16EncodeTrunc_length (cs : List Nat) : ∀ maxLen,
    (utf16EncodeTrunc maxLen cs).length ≤ maxLen := by
  induction cs with
  | nil => intro maxLen; simp [utf16EncodeTrunc]
  | cons c cs ih =>
    intro maxLen
    simp only [utf16EncodeTrunc]
    split
    · rename_i h
      have := ih (maxLen - (utf16EncodeChar c).length)
      simp only [List.length_append]
      omega
    · simp

theorem utf16EncodeTrunc_take (cs : List Nat) : ∀ maxLen,
    ∃ k, utf16EncodeTrunc maxLen cs = utf16EncodeList (cs.take k) ∧
      (k = cs.length ∨ maxLen < (utf16EncodeList (cs.take (k + 1))).length) := by
  induction cs with
  | nil => exact fun maxLen => ⟨0, rfl, Or.inl rfl⟩
  | cons c cs ih =>
    intro maxLen
    by_cases h : (utf16EncodeChar c).length ≤ maxLen
    · obtain ⟨k, hk, hside⟩ := ih (maxLen - (utf16EncodeChar c).length)
      refine ⟨k + 1, ?_, ?_⟩
      · simp only [utf16EncodeTrunc, if_pos h, List.take_succ_cons, utf16EncodeList, hk]
      · cases hside with
        | inl h1 => exact Or.inl (by simp [h1])
        | inr h2 =>
          refine Or.inr ?_
          have he : utf16EncodeList ((c :: cs).take (k + 1 + 1)) =
              utf16EncodeChar c ++ utf16EncodeList (cs.take (k + 1)) := by
            simp [utf16EncodeList]
          rw [he, List.length_append]
          omega
    · refine ⟨0, ?_, Or.inr ?_⟩
      · simp [utf16EncodeTrunc, h, utf16EncodeList]
      · simp only [List.take_succ_cons, List.take_zero, utf16EncodeList,
          List.append_nil, List.length_nil]
        omega

/-- C1: after `CopyTextToOrbisBuffer` the native buffer holds at most
`max_text_length` code units; and whenever the display buffer decodes (and
a conversion context is obtainable), the call succeeds — even when the
converted length exceeds the limit — leaving the native buffer a
whole-character prefix of the converted text, truncated only when the next
character would overflow, so no multi-unit character is ever split. -/
theorem C1_capacityTruncation (avail : Bool) (s : ImeDialogState)
    (hlen : s.text_buffer.length ≤ s.max_text_length) :
    (CopyTextToOrbisBuffer avail s).2.text_buffer.length ≤ s.max_text_length ∧
    ∀ cs, utf8Decode s.current_text = some cs →
      (s.utf8_to_orbis = .established ∨
        (s.utf8_to_orbis = .notEstablished ∧ avail = true)) →
      (CopyTextToOrbisBuffer avail s).1 = true ∧
      ∃ k, (CopyTextToOrbisBuffer avail s).2.text_buffer = utf16EncodeList (cs.take k) ∧
        (k = cs.length ∨ s.max_text_length < (utf16EncodeList (cs.take (k + 1))).length) := by
  cases hctx : s.utf8_to_orbis with
  | unavailable =>
    refine ⟨by simpa [CopyTextToOrbisBuffer, hctx] using hlen, ?_⟩
    intro cs _ hok
    rcases hok with hok | ⟨hok, _⟩ <;> exact IconvCtx.noConfusion hok
  | established =>
    cases hdec : utf8Decode s.current_text with
    | none =>
      refine ⟨by simpa [CopyTextToOrbisBuffer, hctx, copyConvertStep, hdec] using hlen, ?_⟩
      intro cs hcs _
      exact Option.noConfusion hcs
    | some cs0 =>
      refine ⟨?_, ?_⟩
      · simp only [CopyTextToOrbisBuffer, hctx, copyConvertStep, hdec]
        exact utf16EncodeTrunc_length cs0 s.max_text_length
      · intro cs hcs _
        injection hcs with hcs2
        subst hcs2
        refine ⟨by simp [CopyTextToOrbisBuffer, hctx, copyConvertStep, hdec], ?_⟩
        simp only [CopyTextToOrbisBuffer, hctx, copyConvertStep, hdec]
        exact utf16EncodeTrunc_take cs0 s.max_text_length
  | notEstablished =>
    cases avail with
    | false =>
      refine ⟨by simpa [CopyTextToOrbisBuffer, hctx] using hlen, ?_⟩
      intro cs _ hok
      rcases hok with hok | ⟨_, hok⟩
      · exact IconvCtx.noConfusion hok
      · exact Bool.noConfusion hok
    | true =>
      cases hdec : utf8Decode s.current_text with
      | none =>
        refine ⟨by simpa [CopyTextToOrbisBuffer, hctx, copyConvertStep, hdec] using hlen, ?_⟩
        intro cs hcs _
        exact Option.noConfusion hcs
      | some cs0 =>
        refine ⟨?_, ?_⟩
        · simp only [CopyTextToOrbisBuffer, hctx, copyConvertStep, hdec, if_true]
          exact utf16EncodeTrunc_length cs0 s.max_text_length
        · intro cs hcs _
          injection hcs with hcs2
          subst hcs2
          refine ⟨by simp [CopyTextToOrbisBuffer, hctx, copyConvertStep, hdec], ?_⟩
          simp only [CopyTextToOrbisBuffer, hctx, copyConvertStep, hdec, if_true]
          exact utf16EncodeTrunc_take cs0 s.max_text_length

theorem C1_witness :
    ([] : List Nat).length ≤ 1 ∧
    (CopyTextToOrbisBuffer true
      ⟨false, false, false, 1, [], [97, 98], .established, .established⟩).2.text_buffer.length
        ≤ 1 ∧
    (CopyTextToOrbisBuffer true
      ⟨false, false, false, 1, [], [97, 98], .established, .established⟩).1 = true :=
  ⟨by decide,
   (C1_capacityTruncation true
      ⟨false, false, false, 1, [], [97, 98], .established, .established⟩ (by decide)).1,
   ((C1_capacityTruncation true
      ⟨false, false, false, 1, [], [97, 98], .established, .established⟩ (by decide)).2
      [97, 98] rfl (Or.inl rfl)).1⟩

theorem map_cons_congr (a b : Nat) (o : Option (List Nat)) (h : a = b) :
    o.map (fun cs => a :: cs) = o.map (fun cs => b :: cs) := by rw [h]

theorem utf8Decode_encodeChar (c : Nat) (hv : ValidScalar c) (tl : List Nat) :
    utf8Decode (utf8EncodeChar c ++ tl) = (utf8Decode tl).map (fun cs => c :: cs) := by
  rcases Nat.lt_or_ge c 0x80 with h1 | h1
  · simp only [utf8EncodeChar, if_pos h1, List.cons_append, List.nil_append]
    rw [utf8Decode.eq_def]
    dsimp only
    rw [if_pos h1]
  · rcases Nat.lt_or_ge c 0x800 with h2 | h2
    · simp only [utf8EncodeChar, if_neg (by omega : ¬ c < 0x80), if_pos h2,
        List.cons_append, List.nil_append]
      rw [utf8Decode.eq_def]
      dsimp only
      rw [if_neg (by omega), if_neg (by omega), if_neg (by omega), if_pos (by omega)]
      exact map_cons_congr _ _ _ (by omega)
    · rcases Nat.lt_or_ge c 0x10000 with h3 | h3
      · have hs : ¬ (0xD800 ≤ c ∧ c < 0xE000) := by
          rcases hv with hv | hv <;> omega
        simp only [utf8EncodeChar, if_neg (by omega : ¬ c < 0x80),
          if_neg (by omega : ¬ c < 0x800), if_pos h3, List.cons_append, List.nil_append]
        rw [utf8Decode.eq_def]
        dsimp only
        have e3a : ¬ (0xE0 + c / 0x1000 < 0x80) := by omega
        have e3b : ¬ (0xE0 + c / 0x1000 < 0xC2) := by omega
        have e3c : ¬ ¬ (0x80 ≤ 0x80 + c / 0x40 % 0x40 ∧ 0x80 + c / 0x40 % 0x40 < 0xC0) := by
          omega
        have e3d : ¬ (0xE0 + c / 0x1000 < 0xE0) := by omega
        have e3e : ¬ ¬ (0x80 ≤ 0x80 + c % 0x40 ∧ 0x80 + c % 0x40 < 0xC0) := by omega
        have e3f : 0xE0 + c / 0x1000 < 0xF0 := by omega
        rw [if_neg e3a, if_neg e3b, if_neg e3c, if_neg e3d, if_neg e3e, if_pos e3f]
        split_ifs with hcond
        · exact map_cons_congr _ _ _ (by omega)
        · exact absurd (by omega) hcond
      · have hr : c < 0x110000 := by
          rcases hv with hv | hv <;> omega
        simp only [utf8EncodeChar, if_neg (by omega : ¬ c < 0x80),
          if_neg (by omega : ¬ c < 0x800), if_neg (by omega : ¬ c < 0x10000),
          List.cons_append, List.nil_append]
        rw [utf8Decode.eq_def]
        dsimp only
        have e4a : ¬ (0xF0 + c / 0x40000 < 0x80) := by omega
        have e4b : ¬ (0xF0 + c / 0x40000 < 0xC2) := by omega
        have e4c : ¬ ¬ (0x80 ≤ 0x80 + c / 0x1000 % 0x40 ∧ 0x80 + c / 0x1000 % 0x40 < 0xC0) := by
          omega
        have e4d : ¬ (0xF0 + c / 0x40000 < 0xE0) := by omega
        have e4e : ¬ ¬ (0x80 ≤ 0x80 + c / 0x40 % 0x40 ∧ 0x80 + c / 0x40 % 0x40 < 0xC0) := by
          omega
        have e4f : ¬ (0xF0 + c / 0x40000 < 0xF0) := by omega
        have e4g : ¬ ¬ (0x80 ≤ 0x80 + c % 0x40 ∧ 0x80 + c % 0x40 < 0xC0) := by omega
        have e4h : 0xF0 + c / 0x40000 < 0xF5 := by omega
        rw [if_neg e4a, if_neg e4b, if_neg e4c, if_neg e4d, if_neg e4e, if_neg e4f,
          if_neg e4g, if_pos e4h]
        split_ifs with hcond
        · exact map_cons_congr _ _ _ (by omega)
        · exact absurd (by omega) hcond

theorem utf8Decode_encodeList (cs : List Nat) (hv : ∀ c ∈ cs, ValidScalar c) :
    utf8Decode (utf8EncodeList cs) = some cs := by
  induction cs with
  | nil => rfl
  | cons c cs ih =>
    simp only [utf8EncodeList]
    rw [utf8Decode_encodeChar c (hv c (by simp)) (utf8EncodeList cs),
      ih (fun x hx => hv x (by simp [hx]))]
    rfl

theorem utf16Decode_inv (us : List Nat) : ∀ cs, utf16Decode us = some cs →
    (∀ c ∈ cs, ValidScalar c) ∧ utf16EncodeList cs = us := by
  induction us using utf16Decode.induct with
  | case1 =>
    intro cs h
    rw [utf16Decode.eq_def] at h
    dsimp only at h
    injection h with h
    subst h
    exact ⟨by simp, rfl⟩
  | case2 u rest hu ih =>
    intro cs h
    rw [utf16Decode.eq_def] at h
    dsimp only at h
    rw [if_pos hu] at h
    rcases Option.map_eq_some'.mp h with ⟨cs2, hdec, hcs⟩
    subst hcs
    obtain ⟨hval, henc⟩ := ih cs2 hdec
    refine ⟨?_, ?_⟩
    · intro x hx
      rcases List.mem_cons.mp hx with hx | hx
      · subst hx
        rcases hu with hu | hu
        · exact Or.inl hu
        · exact Or.inr ⟨hu.1, by omega⟩
      · exact hval x hx
    · simp only [utf16EncodeList, utf16EncodeChar]
      rw [if_pos (by rcases hu with hu | hu <;> omega : u < 0x10000), henc]
      rfl
  | case3 u h1 h2 u2 rest2 h3 ih =>
    intro cs h
    rw [utf16Decode.eq_def] at h
    dsimp only at h
    rw [if_neg h1, if_pos h2, if_pos h3] at h
    rcases Option.map_eq_some'.mp h with ⟨cs2, hdec, hcs⟩
    subst hcs
    obtain ⟨hval, henc⟩ := ih cs2 hdec
    refine ⟨?_, ?_⟩
    · intro x hx
      rcases List.mem_cons.mp hx with hx | hx
      · exact Or.inr ⟨by omega, by omega⟩
      · exact hval x hx
    · simp only [utf16EncodeList, utf16EncodeChar]
      rw [if_neg (by omega : ¬ 0x10000 + (u - 0xD800) * 0x400 + (u2 - 0xDC00) < 0x10000),
        henc]
      simp only [List.cons_append, List.nil_append, List.cons.injEq]
      exact ⟨by omega, by omega, trivial⟩
  | case4 u h1 h2 u2 rest2 h3 =>
    intro cs h
    rw [utf16Decode.eq_def] at h
    dsimp only at h
    rw [if_neg h1, if_pos h2, if_neg h3] at h
    exact Option.noConfusion h
  | case5 u h1 h2 =>
    intro cs h
    rw [utf16Decode.eq_def] at h
    dsimp only at h
    rw [if_neg h1, if_pos h2] at h
    exact Option.noConfusion h
  | case6 u rest h1 h2 =>
    intro cs h
    rw [utf16Decode.eq_def] at h
    dsimp only at h
    rw [if_neg h1, if_neg h2] at h
    exact Option.noConfusion h

/-- C2: for every string expressible in the fixed-width native (`char16_t`)
encoding of length at most `max_text_length`, converting native-to-host
with `ConvertOrbisToUTF8` and then host-to-native with `ConvertUTF8ToOrbis`
yields the original string. -/
theorem C2_roundTrip (maxLen : Nat) (us cs : List Nat)
    (hdec : utf16Decode us = some cs) (hlen : us.length ≤ maxLen) :
    (ConvertOrbisToUTF8 us).bind ConvertUTF8ToOrbis = some us := by
  obtain ⟨hval, henc⟩ := utf16Decode_inv us cs hdec
  simp [ConvertOrbisToUTF8, ConvertUTF8ToOrbis, hdec, utf8Decode_encodeList cs hval, henc]

theorem C2_witness :
    (ConvertOrbisToUTF8 [0xD83D, 0xDE00, 72]).bind ConvertUTF8ToOrbis =
      some [0xD83D, 0xDE00, 72] :=
  C2_roundTrip 3 [0xD83D, 0xDE00, 72] [0x1F600, 72] (by decide) (by decide)

theorem dbLookup_append_some (a b : Db) (k : String) (v : JVal)
    (h : dbLookup a k = some v) : dbLookup (a ++ b) k = some v := by
  induction a with
  | nil => exact Option.noConfusion h
  | cons kv rest ih =>
    obtain ⟨k2, v2⟩ := kv
    by_cases hk : k2 = k
    · simp only [dbLookup, if_pos hk] at h ⊢
      exact h
    · simp only [dbLookup, if_neg hk] at h ⊢
      exact ih h

theorem dbLookup_append_none (a b : Db) (k : String)
    (h : dbLookup a k = none) : dbLookup (a ++ b) k = dbLookup b k := by
  induction a with
  | nil => rfl
  | cons kv rest ih =>
    obtain ⟨k2, v2⟩ := kv
    by_cases hk : k2 = k
    · simp only [dbLookup, if_pos hk] at h
      exact Option.noConfusion h
    · simp only [dbLookup, if_neg hk] at h ⊢
      exact ih h

theorem dbLookup_dbSet_self (db : Db) (k : String) (v : JVal)
    (h : (dbLookup db k).isSome) : dbLookup (dbSet db k v) k = some v := by
  induction db with
  | nil => simp [dbLookup] at h
  | cons kv rest ih =>
    obtain ⟨k2, v2⟩ := kv
    by_cases hk : k2 = k
    · simp only [dbSet, if_pos hk, dbLookup]
    · simp only [dbLookup, if_neg hk] at h
      simp only [dbSet, if_neg hk, dbLookup, if_neg hk]
      exact ih h

theorem dbLookup_dbSet_other (db : Db) (k : String) (v : JVal) (t : String)
    (h : t ≠ k) : dbLookup (dbSet db k v) t = dbLookup db t := by
  induction db with
  | nil => rfl
  | cons kv rest ih =>
    obtain ⟨k2, v2⟩ := kv
    by_cases hk : k2 = k
    · subst hk
      have hkt : ¬ (k2 = t) := fun hh => h (Eq.symm hh)
      simp only [dbSet, if_pos rfl, dbLookup, if_neg hkt]
    · simp only [dbSet, if_neg hk, dbLookup]
      by_cases ht : k2 = t
      · simp only [if_pos ht]
      · simp only [if_neg ht]
        exact ih

/-- The invariant relating a database to one produced from it by issue
processing: any title whose entry differs was null or absent before and is
a fresh one-field object after. -/
def EntryFresh (db db2 : Db) : Prop :=
  ∀ t, dbLookup db2 t ≠ dbLookup db t →
    (dbLookup db t = none ∨ dbLookup db t = some JVal.jnull) ∧
    ∃ os st, dbLookup db2 t = some (JVal.jobj [(os, JVal.jstr st)])

theorem entryFresh_refl (db : Db) : EntryFresh db db :=
  fun _ h => absurd rfl h

theorem entryFresh_updateEntry (db db2 : Db) (tid os st : String)
    (h : EntryFresh db db2) : EntryFresh db (updateEntry db2 tid os st) := by
  cases hl : dbLookup db2 tid with
  | none =>
    intro t hne
    rw [updateEntry, hl] at hne ⊢
    cases hlt : dbLookup db2 t with
    | some v =>
      rw [dbLookup_append_some db2 _ t v hlt] at hne ⊢
      rw [← hlt] at hne ⊢
      exact h t hne
    | none =>
      rw [dbLookup_append_none db2 _ t hlt] at hne ⊢
      by_cases ht : tid = t
      · subst ht
        refine ⟨?_, os, st, by simp [dbLookup]⟩
        by_cases hdb : dbLookup db tid = none
        · exact Or.inl hdb
        · have hne2 : dbLookup db2 tid ≠ dbLookup db tid := by
            rw [hl]; exact fun hh => hdb hh.symm
          rcases h tid hne2 with ⟨_, _, _, hc⟩
          rw [hl] at hc
          exact Option.noConfusion hc
      · simp only [dbLookup, if_neg ht] at hne ⊢
        rw [← hlt] at hne
        rcases h t hne with ⟨_, _, _, hc⟩
        rw [hlt] at hc
        exact Option.noConfusion hc
  | some v =>
    cases v with
    | jnull =>
      intro t hne
      rw [updateEntry, hl] at hne ⊢
      dsimp only at hne ⊢
      by_cases ht : t = tid
      · subst ht
        rw [dbLookup_dbSet_self db2 t _ (by rw [hl]; rfl)] at hne ⊢
        refine ⟨?_, os, st, rfl⟩
        by_cases hdb : dbLookup db t = some JVal.jnull
        · exact Or.inr hdb
        · have hne2 : dbLookup db2 t ≠ dbLookup db t := by
            rw [hl]; exact fun hh => hdb (Eq.symm hh)
          rcases h t hne2 with ⟨_, _, _, hc⟩
          rw [hl] at hc
          injection hc with hc
      · rw [dbLookup_dbSet_other db2 tid _ t ht] at hne ⊢
        exact h t hne
    | jstr s =>
      intro t hne
      rw [updateEntry, hl] at hne ⊢
      exact h t hne
    | jobj fields =>
      intro t hne
      rw [updateEntry, hl] at hne ⊢
      exact h t hne
    | jother =>
      intro t hne
      rw [updateEntry, hl] at hne ⊢
      exact h t hne

theorem entryFresh_processIssue (db db2 : Db) (i : Issue)
    (h : EntryFresh db db2) : EntryFresh db (processIssue db2 i) := by
  cases hlab : i.labels with
  | none =>
    cases hti : findTitleId i.title with
    | none => simpa [processIssue, hlab, hti] using h
    | some tid => simpa [processIssue, hlab, hti] using h
  | some ls =>
    cases hti : findTitleId i.title with
    | none => simpa [processIssue, hlab, hti] using h
    | some tid =>
      have : processIssue db2 i =
          updateEntry db2 (String.mk tid)
            (processLabelsGo ls "os-unknown" "status-unknown").1
            (processLabelsGo ls "os-unknown" "status-unknown").2 := by
        simp [processIssue, hlab, hti]
      rw [this]
      exact entryFresh_updateEntry db db2 _ _ _ h

theorem entryFresh_foldl (db : Db) (issues : List Issue) :
    ∀ db2, EntryFresh db db2 → EntryFresh db (issues.foldl processIssue db2) := by
  induction issues with
  | nil => exact fun db2 h => h
  | cons i rest ih =>
    intro db2 h
    exact ih (processIssue db2 i) (entryFresh_processIssue db db2 i h)

/-- C9: `ExtractCompatibilityInfo` never changes the stored entry of a
title that already has a non-null entry (the os/status assignment goes to a
detached copy); any title whose entry does change had a null or absent
entry and now holds a single fresh one-field object. -/
theorem C9_extractPreservesNonNull (doc : Option (List Issue)) (db : Db) (title : String)
    (hne : dbLookup (ExtractCompatibilityInfo doc db) title ≠ dbLookup db title) :
    (dbLookup db title = none ∨ dbLookup db title = some JVal.jnull) ∧
    ∃ os st, dbLookup (ExtractCompatibilityInfo doc db) title =
      some (JVal.jobj [(os, JVal.jstr st)]) := by
  cases doc with
  | none => exact absurd rfl hne
  | some issues =>
    exact entryFresh_foldl db issues db (entryFresh_refl db) title hne

theorem C9_witness :
    (dbLookup ([] : Db) "CUSA12345" = none ∨
      dbLookup ([] : Db) "CUSA12345" = some JVal.jnull) ∧
    ∃ os st,
      dbLookup
        (ExtractCompatibilityInfo
          (some [⟨['C', 'U', 'S', 'A', '1', '2', '3', '4', '5'],
            some ["os-linux", "status-playable"]⟩]) []) "CUSA12345" =
        some (JVal.jobj [(os, JVal.jstr st)]) :=
  C9_extractPreservesNonNull
    (some [⟨['C', 'U', 'S', 'A', '1', '2', '3', '4', '5'],
      some ["os-linux", "status-playable"]⟩])
    [] "CUSA12345"
    (fun hcontra => Option.noConfusion hcontra)
